import Mathlib

/-!
Verification of the easy-viewer server-side template renderer.

The renderer (class `Rooter` in `server.js`, together with `SchemeManager`,
`Config` and the legacy `Rooter` of the older module) is embedded shallowly:

* JS strings are `List Char`; `String.slice`, `indexOf`, `trim`,
  `replace`, `replaceAll` and the two regex replacements used by the
  source are reimplemented character by character below.
* JS runtime values visible to the renderer are the inductive `JSVal`,
  with `typeof`, truthiness and string coercion as in the host language.
* `eval` executes arbitrary host code, so the pass `Rooter.run` is
  parametrised by an evaluation oracle
  `ev : Global → List Char → EvalRes × Global`; concrete example runs
  instantiate it with `evalMini`, a model of the host semantics of the
  exact expression strings occurring in those examples.
* The process-wide `global` namespace that `run` writes context
  variables into is threaded explicitly as a `Global` association list,
  so cross-call state is observable.

Replacement strings containing the host `replace` dollar-patterns do not
occur in any example here and are modelled as plain text.
-/

set_option linter.unusedVariables false

/-- Abbreviation: a JS string, represented by its character list. -/
abbrev Str := List Char

/-- `isPre p s` holds when `p` is a prefix of `s` (JS `startsWith`). -/
def isPre : Str → Str → Bool
  | [], _ => true
  | _ :: _, [] => false
  | p :: ps, c :: cs => p = c && isPre ps cs

/-- JS `s.slice(i, j)` for nonnegative indices. -/
def sliceL (s : Str) (i j : Nat) : Str :=
  (s.drop i).take (j - i)

/-- JS `s.indexOf(pat)`: index of the first occurrence, `none` for `-1`. -/
def indexOfSub (s pat : Str) : Option Nat :=
  if isPre pat s then some 0
  else
    match s with
    | [] => none
    | _ :: rest => (indexOfSub rest pat).map (· + 1)

/-- Whitespace recognised by JS `trim` / `\s`, restricted to the
characters appearing in markup files. -/
def isWS (c : Char) : Bool :=
  c = ' ' || c = '\n' || c = '\t' || c = '\r'

/-- JS `s.trim()`. -/
def trimL (s : Str) : Str :=
  ((s.dropWhile isWS).reverse.dropWhile isWS).reverse

/-- Worker for `collapseNL`; when `dropping` is set the scanner is inside
the `\s*` part of a match and keeps deleting whitespace (a further
newline both continues the run and would start a new match — the effect
is identical). -/
def collapseAux (dropping : Bool) : Str → Str
  | [] => []
  | c :: rest =>
    if dropping && isWS c then collapseAux true rest
    else if c = '\n' then collapseAux true rest
    else c :: collapseAux false rest

/-- The regex replacement `key.replace(/\n\s*/g, '')` of `Rooter.run`:
every newline together with the following whitespace run is deleted. -/
def collapseNL (s : Str) : Str :=
  collapseAux false s

/-- JS `s.replace(pat, rep)` with a plain-string pattern: only the first
occurrence is replaced; an absent pattern leaves `s` unchanged. -/
def replaceFirstL (s pat rep : Str) : Str :=
  if isPre pat s then rep ++ s.drop pat.length
  else
    match s with
    | [] => []
    | c :: rest => c :: replaceFirstL rest pat rep

/-- Worker for `replaceAllL`, structurally recursive on a fuel argument;
every step consumes at least one character of `s`, so fuel `s.length`
makes the worker agree with the JS scan. -/
def replaceAllAux (pat rep : Str) : Nat → Str → Str
  | 0, s => s
  | _ + 1, [] => []
  | f + 1, c :: rest =>
    if isPre pat (c :: rest) then
      rep ++ replaceAllAux pat rep f ((c :: rest).drop pat.length)
    else c :: replaceAllAux pat rep f rest

/-- JS `s.replaceAll(pat, rep)` with a plain-string pattern (for the
empty pattern JS inserts `rep` before every character and at the end). -/
def replaceAllL (s pat rep : Str) : Str :=
  if pat = [] then rep ++ s.flatMap (fun c => c :: rep)
  else replaceAllAux pat rep s.length s

/-- JS `s.includes(pat)`. -/
def containsSub (s pat : Str) : Bool :=
  (indexOfSub s pat).isSome

/-- The JS values the renderer can observe from an evaluated expression. -/
inductive JSVal
  | num (n : Int)
  | str (s : Str)
  | bool (b : Bool)
  | nullv
  | undef
  | obj
  | func
  | promise
  deriving DecidableEq

/-- JS `typeof` (note `typeof null` is `"object"`; a pending promise is
an ordinary object). -/
def typeofJS : JSVal → String
  | .num _ => "number"
  | .str _ => "string"
  | .bool _ => "boolean"
  | .nullv => "object"
  | .undef => "undefined"
  | .obj => "object"
  | .func => "function"
  | .promise => "object"

/-- JS truthiness, as used by `item.output || ''`. -/
def truthy : JSVal → Bool
  | .num n => n ≠ 0
  | .str s => s ≠ []
  | .bool b => b
  | .nullv => false
  | .undef => false
  | .obj => true
  | .func => true
  | .promise => true

/-- JS string coercion `String(v)`, as applied by `content.replace` to a
non-string replacement.  The object cases are unreachable after the
suppression step but keep the function total. -/
def displayJS : JSVal → Str
  | .num n => (toString n).data
  | .str s => s
  | .bool b => if b then "true".data else "false".data
  | .nullv => "null".data
  | .undef => "undefined".data
  | .obj => "[object Object]".data
  | .func => "function".data
  | .promise => "[object Promise]".data

/-- The text substituted for a marker: `item.output || ''`. -/
def subText (v : JSVal) : Str :=
  if truthy v then displayJS v else []

/-- The process-wide `global` namespace (and likewise a `data` object):
an insertion-ordered association of variable names to values. -/
abbrev Global := List (String × JSVal)

/-- JS property write `g[k] = v`: an existing key keeps its position, a
new key is appended. -/
def setG (g : Global) (k : String) (v : JSVal) : Global :=
  if (g.lookup k).isSome then
    g.map (fun kv => if kv.1 = k then (k, v) else kv)
  else g ++ [(k, v)]

/-- JS property read `g[k]`. -/
def getG (g : Global) (k : String) : Option JSVal :=
  g.lookup k

/-- `Object.keys(data).forEach(key => global[key] = data[key])`. -/
def seedGlobal (g : Global) (data : Global) : Global :=
  data.foldl (fun acc kv => setG acc kv.1 kv.2) g

/-- One scanned marker of `Rooter.run`: `html` is the literal span
recorded for substitution, `code` the extracted expression text. -/
structure CodeItem where
  html : Str
  code : Str
  deriving DecidableEq

/-- The opener `\x7b\x7b`. -/
def openBr : Str := "\x7b\x7b".data

/-- The closer `\x7d\x7d`. -/
def closeBr : Str := "\x7d\x7d".data

/-- The scanning loop of `Rooter.run` (server.js lines 198-208):

    for (let i = 0; i < content?.length; i++) {
      const start = content.slice(i, i + 2) === openBr;
      const endIndex = content.slice(i + 2).indexOf(closeBr);
      if (!start || endIndex === -1) continue;
      const key = content.slice(i + 2, i + endIndex + 1).trim();
      const html = content.slice(i, i + endIndex + 4);
      const code = key.replace(newlineRun, '');
      codes.push({ html, code });
    }
-/
def scanCodes (content : Str) : List CodeItem :=
  (List.range content.length).filterMap (fun i =>
    match indexOfSub (content.drop (i + 2)) closeBr with
    | none => none
    | some e =>
      if sliceL content i (i + 2) = openBr then
        some ⟨sliceL content i (i + e + 4),
              collapseNL (trimL (sliceL content (i + 2) (i + e + 1)))⟩
      else none)

/-- The declaration rewrite `code.replace(/(let|const|var) /g, 'global.')`
of `Rooter.run`: a global leftmost scan; at any position at most one of
the three keywords can match since their first characters differ. -/
def declRewrite : Str → Str
  | 'l' :: 'e' :: 't' :: ' ' :: rest => "global.".data ++ declRewrite rest
  | 'c' :: 'o' :: 'n' :: 's' :: 't' :: ' ' :: rest => "global.".data ++ declRewrite rest
  | 'v' :: 'a' :: 'r' :: ' ' :: rest => "global.".data ++ declRewrite rest
  | c :: rest => c :: declRewrite rest
  | [] => []

/-- The head test of the declaration-rewrite scan: which keyword (if
any) matches at the current position, and how many characters the match
consumes.  At most one alternative can match since the keywords start
with distinct characters. -/
def declHead (s : Str) : Option Nat :=
  if isPre "let ".data s then some 4
  else if isPre "const ".data s then some 6
  else if isPre "var ".data s then some 4
  else none

/-- `Rooter.data_keys_replacer` of the legacy module (part_001 lines
223-231): every data key occurring in the code is textually replaced by
its dotted context reference. -/
def data_keys_replacer (dataKeys : List Str) (code : Str) : Str :=
  dataKeys.foldl
    (fun c k => if containsSub c k then replaceAllL c k ("data.".data ++ k) else c)
    code

/-- Result of one host `eval` call: a value, or a thrown exception
carried as its failure detail. -/
inductive EvalRes
  | ok (v : JSVal)
  | thrown (e : String)
  deriving DecidableEq

/-- The `typeof` strings suppressed by `Rooter.run`
(`['object', 'function', 'undefined', 'null']`). -/
def suppressedTypes : List String :=
  ["object", "function", "undefined", "null"]

/-- The suppression step of `Rooter.run`: results of a suppressed
`typeof` are reset to `null`. -/
def suppressOut (v : JSVal) : JSVal :=
  if typeofJS v ∈ suppressedTypes then .nullv else v

/-- The evaluation map of `Rooter.run` (lines 218-227): each code is
evaluated in order against the global namespace; a thrown exception is
caught and pushed onto the error list, leaving that item's output at its
initial `null`. -/
def evalLoop (ev : Global → Str → EvalRes × Global) :
    List CodeItem → Global → List String → List (CodeItem × JSVal) × Global × List String
  | [], g, errs => ([], g, errs)
  | item :: rest, g, errs =>
    match ev g item.code with
    | (.ok v, g') =>
      let (outs, g2, errs2) := evalLoop ev rest g' errs
      ((item, suppressOut v) :: outs, g2, errs2)
    | (.thrown e, g') =>
      let (outs, g2, errs2) := evalLoop ev rest g' (errs ++ [e])
      ((item, .nullv) :: outs, g2, errs2)

/-- The substitution loop of `Rooter.run` (line 229): each item's literal
span is replaced, first occurrence only, by `item.output || ''`. -/
def substAll (content : Str) (outs : List (CodeItem × JSVal)) : Str :=
  outs.foldl (fun c io => replaceFirstL c io.1.html (subText io.2)) content

/-- The rewritten marker list that `Rooter.run` evaluates for a markup
string: the scan loop followed by the declaration-rewrite map
(`codes.map` at server.js lines 210-214). -/
def rewrittenCodes (content : Str) : List CodeItem :=
  (scanCodes content).map (fun it => ⟨it.html, declRewrite it.code⟩)

/-- `Rooter.run` (server.js lines 186-231), with host evaluation supplied
by the oracle `ev`.  Returns the substituted content, the error list of
the Rooter instance, and the process-wide global namespace; the `include`
closure installed on `data` appears as an opaque function value (its
behaviour, when exercised, is part of the oracle). -/
def runPass (ev : Global → Str → EvalRes × Global)
    (data : Global) (content : Str) (errs0 : List String) (g0 : Global) :
    Str × List String × Global :=
  let data1 := setG data "include" .func
  let codes := rewrittenCodes content
  let g1 := seedGlobal g0 data1
  let (outs, g2, errs) := evalLoop ev codes g1 errs0
  (substAll content outs, errs, g2)

/-- Specification-side trace of the per-marker outputs: what each marker
substitutes after suppression, markers whose evaluation throws yielding
`null`.  `runPass` is proved to refine this. -/
def outTrace (ev : Global → Str → EvalRes × Global) :
    List CodeItem → Global → List JSVal
  | [], _ => []
  | item :: rest, g =>
    match ev g item.code with
    | (.ok v, g') => suppressOut v :: outTrace ev rest g'
    | (.thrown _, g') => JSVal.nullv :: outTrace ev rest g'

/-- Specification-side trace of thrown failure details, one per failing
marker, in marker order. -/
def thrownTrace (ev : Global → Str → EvalRes × Global) :
    List CodeItem → Global → List String
  | [], _ => []
  | item :: rest, g =>
    match ev g item.code with
    | (.ok _, g') => thrownTrace ev rest g'
    | (.thrown e, g') => e :: thrownTrace ev rest g'

/-- Specification-side trace of the final global namespace. -/
def gTrace (ev : Global → Str → EvalRes × Global) :
    List CodeItem → Global → Global
  | [], g => g
  | item :: rest, g =>
    match ev g item.code with
    | (.ok _, g') => gTrace ev rest g'
    | (.thrown _, g') => gTrace ev rest g'

/-- A loaded scheme entry of `SchemeManager` (`\x7bname, file, html\x7d`). -/
structure Scheme where
  name : String
  file : String
  html : Str
  deriving DecidableEq

/-- The scheme argument of `Rooter.render`/`getHtml`: a name string, an
object carrying a name (possibly absent, covering `null` as well since
`typeof null` is `"object"`), or any other value. -/
inductive SchemeRef
  | nameRef (s : String)
  | objRef (name : Option String)
  | otherRef
  deriving DecidableEq

/-- Scheme resolution of `Rooter.getHtml` (server.js lines 157-159): a
string is looked up in the registry, an object is looked up by its
`name`, anything else leaves the scheme unresolved. -/
def resolveScheme (reg : List (String × Scheme)) : SchemeRef → Option Scheme
  | .nameRef s => reg.lookup s
  | .objRef (some s) => reg.lookup s
  | .objRef none => none
  | .otherRef => none

/-- What a call path hands back to the HTTP layer: a rendered HTML body,
or a structured JSON error. -/
inductive SentBody
  | htmlBody (content : Str)
  | jsonBody (status : Nat) (message : String)
  deriving DecidableEq

/-- `Rooter.getHtml` (server.js lines 156-171): resolve the scheme; when
it is missing or its markup is empty, answer the 404 JSON without
rendering; otherwise set `data.file_name` and run the renderer.  Returns
the sent body, the Rooter error list and the global namespace. -/
def getHtmlM (reg : List (String × Scheme)) (ev : Global → Str → EvalRes × Global)
    (file_name : Str) (data : Global) (scheme : SchemeRef)
    (errs0 : List String) (g0 : Global) : SentBody × List String × Global :=
  match resolveScheme reg scheme with
  | none => (.jsonBody 404 "Html scheme not found.", errs0, g0)
  | some sch =>
    if sch.html = [] then (.jsonBody 404 "Html scheme not found.", errs0, g0)
    else
      let data1 := setG data "file_name" (.str file_name)
      let (content, errs, g) := runPass ev data1 sch.html errs0 g0
      (.htmlBody content, errs, g)

/-- `Rooter.render` (server.js lines 143-154): a fresh Rooter starts with
an empty error list; after `getHtml` returns, the accumulated errors are
inspected once — non-empty with ignore-errors off yields the 500 JSON,
otherwise whatever `getHtml` produced is sent. -/
def renderM (reg : List (String × Scheme)) (ev : Global → Str → EvalRes × Global)
    (file_name : Str) (data : Global) (scheme : SchemeRef)
    (ignore_errors : Bool) (g0 : Global) : SentBody × List String × Global :=
  let (body, errs, g) := getHtmlM reg ev file_name data scheme [] g0
  if errs ≠ [] ∧ ignore_errors = false then
    (.jsonBody 500 "Internal Server Error.", errs, g)
  else (body, errs, g)

/-- Host-evaluation oracle for the concrete example runs: the JS
semantics of the exact (rewritten) expression strings occurring in those
examples — the assignment `global.x = 5` yields its assigned value and
writes the global field, identifier expressions read the global
namespace and throw a `ReferenceError` when unbound, literals evaluate
to themselves.  Strings outside the modelled fragment throw. -/
def evalMini (g : Global) (code : Str) : EvalRes × Global :=
  if code = "global.x = 5".data then (.ok (.num 5), setG g "x" (.num 5))
  else if code = "x * 2".data then
    match getG g "x" with
    | some (.num n) => (.ok (.num (n * 2)), g)
    | some _ => (.thrown "unmodelled host behaviour", g)
    | none => (.thrown "ReferenceError: x is not defined", g)
  else if code = "0".data then (.ok (.num 0), g)
  else if code = "false".data then (.ok (.bool false), g)
  else if code = "1+1".data then (.ok (.num 2), g)
  else if code = "s".data then
    match getG g "s" with
    | some v => (.ok v, g)
    | none => (.thrown "ReferenceError: s is not defined", g)
  else (.thrown "SyntaxError: unmodelled expression", g)

/-- Oracle evaluating every expression to the fixed value `v` without
touching the global namespace. -/
def constEval (v : JSVal) (g : Global) (_code : Str) : EvalRes × Global :=
  (.ok v, g)

/-- Oracle throwing on every expression. -/
def evThrow (g : Global) (_code : Str) : EvalRes × Global :=
  (.thrown "boom", g)

/-- Host-evaluation oracle for the failing example expression
`undefinedVar.prop`: evaluating it throws, and the host exception
message names only the missing property (`TypeError: Cannot read
properties of undefined (reading \x27prop\x27)`, the Node message) —
the expression text itself appears nowhere in the exception. -/
def evalUndef (g : Global) (code : Str) : EvalRes × Global :=
  if code = "undefinedVar.prop".data then
    (.thrown "TypeError: Cannot read properties of undefined (reading \x27prop\x27)", g)
  else (.thrown "SyntaxError: unmodelled expression", g)

/-- Recognise a (rewritten) marker expression of the form
`include(\x22name\x22)`, the call shape exercising the `include` closure
that `Rooter.run` installs on the data context. -/
def parseIncludeCall (code : Str) : Option Str :=
  let pre := "include(\x22".data
  let post := "\x22)".data
  if isPre pre code then
    let rest := code.drop pre.length
    if post.length ≤ rest.length ∧ rest.drop (rest.length - post.length) = post then
      some (rest.take (rest.length - post.length))
    else none
  else none

/-- Evaluation of one pass's markers for `runInc`, in marker order, with
the recursive renderer supplied as `render`: host evaluation of
`include(\x22name\x22)` is modelled on the `include` closure of server.js
lines 189-196 — read the view file (the `views` association), on failure
return `null` (suppressed to empty output), on success recursively run
the same renderer and surface the returned string. -/
def goInc (views : List (Str × Str)) (render : Str → Option Str) :
    List CodeItem → Option (List (CodeItem × JSVal))
  | [] => some []
  | item :: rest =>
    match parseIncludeCall item.code with
    | none => none
    | some name =>
      match views.lookup name with
      | none =>
        match goInc views render rest with
        | none => none
        | some outs => some ((item, JSVal.nullv) :: outs)
      | some fileHtml =>
        match render fileHtml with
        | none => none
        | some rendered =>
          match goInc views render rest with
          | none => none
          | some outs => some ((item, JSVal.str rendered) :: outs)

/-- `Rooter.run` specialised to markups whose markers are all `include`
calls: the shared scan/rewrite/substitution stages are reused.  The fuel
argument makes the unbounded source recursion definable: `none` means
the recursion has not returned within `fuel` nested calls.  The source
has no depth guard, so no fuel value is distinguished by an error
outcome. -/
def runInc (views : List (Str × Str)) : Nat → Str → Option Str
  | 0, _ => none
  | fuel + 1, content =>
    match goInc views (runInc views fuel) (rewrittenCodes content) with
    | none => none
    | some outs => some (substAll content outs)

/-- A view that includes itself: `\x7b\x7b include(\x22loop\x22) \x7d\x7d`. -/
def loopTpl : Str := "\x7b\x7b include(\x22loop\x22) \x7d\x7d".data

/-- A views directory containing only the self-referential view. -/
def loopViews : List (Str × Str) := [("loop".data, loopTpl)]

/-- A views directory forming an include chain of depth two:
`v1` includes `v2`, `v2` is plain text. -/
def chainViews : List (Str × Str) :=
  [("v1".data, "B\x7b\x7b include(\x22v2\x22) \x7d\x7d".data),
   ("v2".data, "C".data)]

/-- Top-level markup including `v1`. -/
def chainTop : Str := "A\x7b\x7b include(\x22v1\x22) \x7d\x7d".data

/-- A one-scheme registry used to instantiate the pipeline theorems. -/
def regW : List (String × Scheme) :=
  [("app", ⟨"app", "app.html", "\x7b\x7b q \x7d\x7d".data⟩)]

example : sliceL "abcdef".data 1 3 = "bc".data := by decide
example : indexOfSub "ab\x7d\x7dc".data closeBr = some 2 := by decide
example : trimL "  ab ".data = "ab".data := by decide
example : declRewrite "let x = 5".data = "global.x = 5".data := by decide
example :
    scanCodes "\x7b\x7b let x = 5 \x7d\x7d\x7b\x7b x * 2 \x7d\x7d".data =
      [⟨"\x7b\x7b let x = 5 \x7d\x7d".data, "let x = 5".data⟩,
       ⟨"\x7b\x7b x * 2 \x7d\x7d".data, "x * 2".data⟩] := by decide
example : scanCodes "\x7b\x7bx\x7d\x7d".data = [⟨"\x7b\x7bx\x7d\x7d".data, ([] : Str)⟩] := by decide

/-! ## Helper lemmas -/

theorem isPre_iff (p s : Str) : isPre p s = true ↔ ∃ t, s = p ++ t := by
  induction p generalizing s with
  | nil => simp [isPre]
  | cons a ps ih =>
    cases s with
    | nil => simp [isPre]
    | cons c cs =>
      simp only [isPre, Bool.and_eq_true, decide_eq_true_eq, ih, List.cons_append,
        List.cons.injEq]
      constructor
      · rintro ⟨rfl, t, rfl⟩; exact ⟨t, rfl, rfl⟩
      · rintro ⟨t, rfl, rfl⟩; exact ⟨rfl, t, rfl⟩

theorem declRewrite_head (s : Str) : declRewrite s =
    (match declHead s with
      | some n => "global.".data ++ declRewrite (s.drop n)
      | none => match s with | [] => [] | c :: r => c :: declRewrite r) := by
  rw [declRewrite.eq_def]
  split
  · simp [declHead, isPre]
  · simp [declHead, isPre]
  · simp [declHead, isPre]
  · rename_i c rest h1 h2 h3
    have hl : isPre "let ".data (c :: rest) = false := by
      by_contra hcon
      rw [Bool.not_eq_false] at hcon
      obtain ⟨t, ht⟩ := (isPre_iff _ _).mp hcon
      simp only [List.cons_append, List.nil_append, List.cons.injEq] at ht
      exact h1 t ht.1 ht.2
    have hc : isPre "const ".data (c :: rest) = false := by
      by_contra hcon
      rw [Bool.not_eq_false] at hcon
      obtain ⟨t, ht⟩ := (isPre_iff _ _).mp hcon
      simp only [List.cons_append, List.nil_append, List.cons.injEq] at ht
      exact h2 t ht.1 ht.2
    have hv : isPre "var ".data (c :: rest) = false := by
      by_contra hcon
      rw [Bool.not_eq_false] at hcon
      obtain ⟨t, ht⟩ := (isPre_iff _ _).mp hcon
      simp only [List.cons_append, List.nil_append, List.cons.injEq] at ht
      exact h3 t ht.1 ht.2
    simp [declHead, hl, hc, hv]
  · simp [declHead, isPre]

theorem declRewrite_global (t : Str) :
    declRewrite ("global.".data ++ t) = "global.".data ++ declRewrite t := by
  simp [declRewrite]

theorem isPre_of_declRewrite (q : Str) (hg : 'g' ∉ q) :
    ∀ u, isPre q (declRewrite u) = true → isPre q u = true := by
  have main : ∀ n u q, 'g' ∉ q → List.length u ≤ n →
      isPre q (declRewrite u) = true → isPre q u = true := by
    intro n
    induction n with
    | zero =>
      intro u q hq hu hpre
      have : u = [] := List.length_eq_zero.mp (Nat.le_zero.mp hu)
      subst this
      cases q with
      | nil => simp [isPre]
      | cons a as => simp [declRewrite, isPre] at hpre
    | succ n ih =>
      intro u q hq hu hpre
      rw [declRewrite_head] at hpre
      cases hh : declHead u with
      | some m =>
        rw [hh] at hpre
        cases q with
        | nil => simp [isPre]
        | cons a as =>
          exfalso
          simp only [isPre, Bool.and_eq_true, decide_eq_true_eq] at hpre
          exact hq (by simp [hpre.1])
      | none =>
        rw [hh] at hpre
        cases u with
        | nil => exact hpre
        | cons c rest =>
          cases q with
          | nil => simp [isPre]
          | cons a as =>
            simp only [isPre, Bool.and_eq_true, decide_eq_true_eq] at hpre ⊢
            refine ⟨hpre.1, ?_⟩
            have has : 'g' ∉ as := fun h => hq (List.mem_cons_of_mem _ h)
            have hlen : List.length rest ≤ n := by
              simp at hu; omega
            exact ih rest as has hlen hpre.2
  intro u
  exact main (List.length u) u q hg le_rfl

theorem declRewrite_idem (s : Str) :
    declRewrite (declRewrite s) = declRewrite s := by
  have main : ∀ n s, List.length s ≤ n →
      declRewrite (declRewrite s) = declRewrite s := by
    intro n
    induction n with
    | zero =>
      intro s hs
      have : s = [] := List.length_eq_zero.mp (Nat.le_zero.mp hs)
      subst this; rfl
    | succ n ih =>
      intro s hs
      cases hh : declHead s with
      | some m =>
        have hne : s ≠ [] := by
          intro h; subst h; simp [declHead, isPre] at hh
        have hm : m = 4 ∨ m = 6 := by
          simp only [declHead] at hh
          split_ifs at hh <;> simp_all
        have heq : declRewrite s = "global.".data ++ declRewrite (s.drop m) := by
          rw [declRewrite_head, hh]
        rw [heq, declRewrite_global]
        congr 1
        apply ih
        have hpos : 0 < List.length s := List.length_pos.mpr hne
        have hdl : List.length (s.drop m) = List.length s - m := by simp
        omega
      | none =>
        cases s with
        | nil => rfl
        | cons c rest =>
          have hstep : declRewrite (c :: rest) = c :: declRewrite rest := by
            rw [declRewrite_head, hh]
          rw [hstep]
          have h1 : ¬ isPre "let ".data (c :: rest) = true := by
            intro h
            simp only [declHead, h, if_true] at hh
            exact Option.noConfusion hh
          have h2 : ¬ isPre "const ".data (c :: rest) = true := by
            intro h
            simp only [declHead, h, if_true] at hh
            split_ifs at hh
          have h3 : ¬ isPre "var ".data (c :: rest) = true := by
            intro h
            simp only [declHead, h, if_true] at hh
            split_ifs at hh
          have f1 : ¬ isPre "let ".data (c :: declRewrite rest) = true := by
            intro h
            simp only [isPre, Bool.and_eq_true, decide_eq_true_eq] at h
            have hw := isPre_of_declRewrite "et ".data (by decide) rest h.2
            exact h1 (by simp only [isPre, Bool.and_eq_true, decide_eq_true_eq]; exact ⟨h.1, hw⟩)
          have f2 : ¬ isPre "const ".data (c :: declRewrite rest) = true := by
            intro h
            simp only [isPre, Bool.and_eq_true, decide_eq_true_eq] at h
            have hw := isPre_of_declRewrite "onst ".data (by decide) rest h.2
            exact h2 (by simp only [isPre, Bool.and_eq_true, decide_eq_true_eq]; exact ⟨h.1, hw⟩)
          have f3 : ¬ isPre "var ".data (c :: declRewrite rest) = true := by
            intro h
            simp only [isPre, Bool.and_eq_true, decide_eq_true_eq] at h
            have hw := isPre_of_declRewrite "ar ".data (by decide) rest h.2
            exact h3 (by simp only [isPre, Bool.and_eq_true, decide_eq_true_eq]; exact ⟨h.1, hw⟩)
          have hnone2 : declHead (c :: declRewrite rest) = none := by
            simp [declHead, f1, f2, f3]
          rw [declRewrite_head (c :: declRewrite rest), hnone2]
          have hlen : List.length rest ≤ n := by
            simp only [List.length_cons] at hs; omega
          simp only []
          rw [ih rest hlen]
  exact main (List.length s) s le_rfl

theorem evalLoop_refines (ev : Global → Str → EvalRes × Global) :
    ∀ (codes : List CodeItem) (g : Global) (errs0 : List String),
      evalLoop ev codes g errs0 =
        (codes.zip (outTrace ev codes g), gTrace ev codes g,
          errs0 ++ thrownTrace ev codes g) := by
  intro codes
  induction codes with
  | nil => intro g errs0; simp [evalLoop, outTrace, gTrace, thrownTrace]
  | cons item rest ih =>
    intro g errs0
    simp only [evalLoop, outTrace, gTrace, thrownTrace]
    rcases hev : ev g item.code with ⟨r, g'⟩
    cases r with
    | ok v => simp [hev, ih, List.zip_cons_cons]
    | thrown e => simp [hev, ih, List.zip_cons_cons]

theorem indexOfSub_isPre :
    ∀ (s pat : Str) (e : Nat), indexOfSub s pat = some e →
      isPre pat (s.drop e) = true := by
  intro s
  induction s with
  | nil =>
    intro pat e h
    rw [indexOfSub] at h
    split_ifs at h with hp
    · cases h; simpa using hp
  | cons c rest ih =>
    intro pat e h
    rw [indexOfSub] at h
    split_ifs at h with hp
    · cases h; simpa using hp
    · simp only [Option.map_eq_some'] at h
      obtain ⟨e', he', rfl⟩ := h
      simpa using ih pat e' he'

theorem isPre_take (p s : Str) (h : isPre p s = true) :
    s.take p.length = p := by
  obtain ⟨t, rfl⟩ := (isPre_iff _ _).mp h
  simp

theorem isPre_length_le (p s : Str) (h : isPre p s = true) :
    p.length ≤ s.length := by
  obtain ⟨t, rfl⟩ := (isPre_iff _ _).mp h
  simp

theorem runInc_loop_diverges : ∀ fuel, runInc loopViews fuel loopTpl = none := by
  intro fuel
  induction fuel with
  | zero => rfl
  | succ f ih =>
    have hcodes : rewrittenCodes loopTpl =
        [⟨loopTpl, "include(\x22loop\x22)".data⟩] := by decide
    have hparse : parseIncludeCall "include(\x22loop\x22)".data = some "loop".data := by
      decide
    have hlook : loopViews.lookup "loop".data = some loopTpl := by decide
    rw [runInc, hcodes, goInc, hparse]
    simp only [hlook, ih]

/-- C4 (amended): for every position where the scanner matches, the
recorded literal span is the full marker including both delimiters, and
the recorded raw expression is the text strictly between the delimiters
with its final character removed, then trimmed and newline-collapsed
(the `slice(i + 2, i + endIndex + 1)` upper bound of server.js line 204
stops one character short of the closer found at offset `endIndex` from
`i + 2`). -/
theorem claim_C4_amended (content : Str) (i e : Nat)
    (h1 : sliceL content i (i + 2) = openBr)
    (h2 : indexOfSub (content.drop (i + 2)) closeBr = some e) :
    (⟨openBr ++ sliceL content (i + 2) (i + 2 + e) ++ closeBr,
      collapseNL (trimL ((sliceL content (i + 2) (i + 2 + e)).dropLast))⟩ : CodeItem)
      ∈ scanCodes content := by
  have h1t : (content.drop i).take 2 = openBr := by
    have : i + 2 - i = 2 := by omega
    rw [sliceL, this] at h1
    exact h1
  have hcl : isPre closeBr ((content.drop (i + 2)).drop e) = true :=
    indexOfSub_isPre _ _ _ h2
  have hMe : 2 ≤ ((content.drop (i + 2)).drop e).length := by
    have := isPre_length_le _ _ hcl
    simpa using this
  have hMlen : e + 2 ≤ (content.drop (i + 2)).length := by
    have hl : ((content.drop (i + 2)).drop e).length = (content.drop (i + 2)).length - e := by
      rw [List.length_drop]
    omega
  have hdec1 : content.drop i = openBr ++ content.drop (i + 2) := by
    conv_lhs => rw [← List.take_append_drop 2 (content.drop i)]
    rw [h1t, List.drop_drop]
  have hdecM : content.drop (i + 2) =
      (content.drop (i + 2)).take e ++ (closeBr ++ ((content.drop (i + 2)).drop e).drop 2) := by
    conv_lhs => rw [← List.take_append_drop e (content.drop (i + 2))]
    congr 1
    conv_lhs => rw [← List.take_append_drop 2 ((content.drop (i + 2)).drop e)]
    congr 1
    have := isPre_take _ _ hcl
    simpa using this
  have hilen : i + 2 ≤ content.length := by
    have hlen := congrArg List.length hdec1
    simp only [List.length_drop, List.length_append] at hlen
    have h2' : openBr.length = 2 := rfl
    omega
  have hbet : ((content.drop (i + 2)).take e).length = e := by
    simp only [List.length_take]
    omega
  have hbetSlice : sliceL content (i + 2) (i + 2 + e) = (content.drop (i + 2)).take e := by
    rw [sliceL]
    congr 1
    omega
  have hob : (openBr : Str).length = 2 := rfl
  have hcb : (closeBr : Str).length = 2 := rfl
  have E1 : sliceL content i (i + e + 4) =
      openBr ++ (content.drop (i + 2)).take e ++ closeBr := by
    rw [sliceL, show i + e + 4 - i = e + 4 from by omega]
    conv_lhs => rw [hdec1, hdecM]
    rw [List.take_append_eq_append_take]
    rw [@List.take_of_length_le _ (e + 4) openBr (by rw [hob]; omega)]
    rw [hob, show e + 4 - 2 = e + 2 from by omega]
    rw [List.take_append_eq_append_take]
    rw [@List.take_of_length_le _ (e + 2) ((content.drop (i + 2)).take e) (by rw [hbet]; omega)]
    rw [hbet, show e + 2 - e = 2 from by omega]
    rw [List.take_append_eq_append_take]
    rw [@List.take_of_length_le _ 2 closeBr (by rw [hcb])]
    rw [hcb, show (2 : Nat) - 2 = 0 from rfl, List.take_zero, List.append_nil]
    rw [List.append_assoc]
  have E2 : sliceL content (i + 2) (i + e + 1) =
      ((content.drop (i + 2)).take e).dropLast := by
    rw [List.dropLast_eq_take, hbet, List.take_take, sliceL]
    congr 1
    omega
  refine List.mem_filterMap.mpr ⟨i, List.mem_range.mpr (by omega), ?_⟩
  simp only [h2, E1, E2, hbetSlice]
  rw [if_pos h1]

/-- C4 (counterexample): scanning the marker `\x7b\x7bx\x7d\x7d`
records the empty raw expression, while everything strictly between the
delimiters, trimmed and collapsed, is `x` — so the raw expression text
does not equal the trimmed text between opener and closer. -/
theorem claim_C4_counterexample :
    (scanCodes "\x7b\x7bx\x7d\x7d".data).map CodeItem.code = [([] : Str)] ∧
    collapseNL (trimL (sliceL "\x7b\x7bx\x7d\x7d".data 2 3)) = "x".data ∧
    ([] : Str) ≠ "x".data := by decide

/-- C4 witness: the amended characterisation instantiated at the marker
`\x7b\x7bx\x7d\x7d`, position 0, closer offset 1. -/
theorem claim_C4_witness :
    (⟨openBr ++ sliceL "\x7b\x7bx\x7d\x7d".data 2 3 ++ closeBr,
      collapseNL (trimL ((sliceL "\x7b\x7bx\x7d\x7d".data 2 3).dropLast))⟩ : CodeItem)
      ∈ scanCodes "\x7b\x7bx\x7d\x7d".data :=
  claim_C4_amended "\x7b\x7bx\x7d\x7d".data 0 1 (by decide) (by decide)

/-- C2 (amended): `Rooter.run` performs exactly one
scan-rewrite-evaluate-substitute pass and never re-scans; in particular
a markup whose scan yields zero matches is returned unchanged.  Markers
injected into the markup by substituted values are left unresolved
(nested includes are instead resolved by the recursive `run` call inside
the `include` closure during evaluation). -/
theorem claim_C2_amended (ev : Global → Str → EvalRes × Global)
    (data : Global) (content : Str) (errs0 : List String) (g0 : Global)
    (h : scanCodes content = []) :
    (runPass ev data content errs0 g0).1 = content := by
  simp [runPass, rewrittenCodes, h, evalLoop, substAll]

/-- C2 witness: the single-pass theorem instantiated at the marker-free
markup `abc`. -/
theorem claim_C2_witness :
    scanCodes "abc".data = [] ∧ (runPass evalMini [] "abc".data [] []).1 = "abc".data :=
  ⟨by decide, claim_C2_amended evalMini [] "abc".data [] [] (by decide)⟩

/-- C2 (counterexample): rendering `\x7b\x7b s \x7d\x7d` where the
context binds `s` to the string `\x7b\x7b 1+1 \x7d\x7d` returns that
string verbatim — the returned text still contains a resolvable marker,
so the claimed re-scan to a fixed point does not happen. -/
theorem claim_C2_counterexample :
    (runPass evalMini [("s", .str "\x7b\x7b 1+1 \x7d\x7d".data)]
        "\x7b\x7b s \x7d\x7d".data [] []).1 = "\x7b\x7b 1+1 \x7d\x7d".data ∧
    scanCodes "\x7b\x7b 1+1 \x7d\x7d".data ≠ [] := by decide

/-- C3 (counterexample): rendering
`\x7b\x7b let x = 5 \x7d\x7d\x7b\x7b x * 2 \x7d\x7d` over the empty
data context produces `510`, not `10`: the declaration marker is
rewritten to the assignment `global.x = 5`, whose JS value is `5` — a
number, which is surfaced. -/
theorem claim_C3_counterexample :
    (runPass evalMini [] "\x7b\x7b let x = 5 \x7d\x7d\x7b\x7b x * 2 \x7d\x7d".data [] []).1
        = "510".data ∧
    (runPass evalMini [] "\x7b\x7b let x = 5 \x7d\x7d\x7b\x7b x * 2 \x7d\x7d".data [] []).1
        ≠ "10".data := by decide

/-- C3 (amended): rendering
`\x7b\x7b let x = 5 \x7d\x7d\x7b\x7b x * 2 \x7d\x7d` over the empty
data context produces exactly `510`: the declaration marker writes `5`
into the context field `x` (visible to the later marker in the same
pass, which yields `10`) but also surfaces the assignment value `5` as
visible text. -/
theorem claim_C3_amended :
    (runPass evalMini [] "\x7b\x7b let x = 5 \x7d\x7d\x7b\x7b x * 2 \x7d\x7d".data [] []).1
        = "510".data ∧
    getG (runPass evalMini [] "\x7b\x7b let x = 5 \x7d\x7d\x7b\x7b x * 2 \x7d\x7d".data [] []).2.2
        "x" = some (.num 5) := by decide

/-- C5 (counterexample): the primitive scalar results `0` and `false`
are not surfaced as text — the substitution `item.output || \x27\x27`
replaces every falsy output by the empty string. -/
theorem claim_C5_counterexample :
    (runPass evalMini [] "\x7b\x7b 0 \x7d\x7d".data [] []).1 = [] ∧
    ([] : Str) ≠ "0".data ∧
    (runPass evalMini [] "\x7b\x7b false \x7d\x7d".data [] []).1 = [] ∧
    ([] : Str) ≠ "false".data := by decide

theorem replaceFirstL_self (s r : Str) : replaceFirstL s s r = r := by
  have h : isPre s s = true := (isPre_iff _ _).mpr ⟨[], by simp⟩
  rw [replaceFirstL.eq_def]
  simp [h]

/-- C5 (amended): for a marker evaluating to any value `v`, results of
`typeof` object, function or undefined — which covers the null value and
pending promises, both plain objects to `typeof` — substitute the empty
string; a primitive scalar result is surfaced as its display text only
when truthy, and falsy primitives (0, false, the empty string) also
substitute the empty string. -/
theorem claim_C5_amended (v : JSVal) :
    (runPass (constEval v) [] "\x7b\x7b e \x7d\x7d".data [] []).1 =
      (if typeofJS v ∈ suppressedTypes then []
       else if truthy v = true then displayJS v else []) := by
  have hcodes : rewrittenCodes "\x7b\x7b e \x7d\x7d".data =
      [⟨"\x7b\x7b e \x7d\x7d".data, "e".data⟩] := by decide
  have hsl : sliceL "\x7b\x7b e \x7d\x7d".data 0 7 = "\x7b\x7b e \x7d\x7d".data := by
    decide
  simp only [runPass, hcodes, evalLoop, constEval, substAll, List.foldl]
  cases v <;>
    simp [suppressOut, suppressedTypes, typeofJS, subText, truthy, displayJS, hsl,
      replaceFirstL_self]

/-- C6 (counterexample): rendering the failing example marker
`\x7b\x7b undefinedVar.prop \x7d\x7d` appends exactly one entry — the
caught host exception, pushed as-is by server.js line 224 — and that
entry is the bare failure detail: the offending expression text
`undefinedVar.prop` does not occur in the recorded entry, so the
appended error does not carry the expression text (the marker still
substitutes the empty string). -/
theorem claim_C6_counterexample :
    (runPass evalUndef [] "\x7b\x7b undefinedVar.prop \x7d\x7d".data [] []).2.1
      = ["TypeError: Cannot read properties of undefined (reading \x27prop\x27)"] ∧
    containsSub
      "TypeError: Cannot read properties of undefined (reading \x27prop\x27)".data
      "undefinedVar.prop".data = false ∧
    (runPass evalUndef [] "\x7b\x7b undefinedVar.prop \x7d\x7d".data [] []).1
      = [] := by decide

/-- C6 (amended): for every oracle and markup, `Rooter.run` refines the
three trace functions: every scanned marker is evaluated (the output
list zips the full marker list), the error list after the pass is the
initial list extended by exactly one entry per failing marker in marker
order — each entry being the caught exception's failure detail, with no
expression text attached (a caught exception never aborts the pass) —
and a failing marker substitutes the empty string (its output is
`null`, and `subText null` is empty). -/
theorem claim_C6_errors_accumulate (ev : Global → Str → EvalRes × Global)
    (data : Global) (content : Str) (errs0 : List String) (g0 : Global) :
    runPass ev data content errs0 g0 =
      (substAll content ((rewrittenCodes content).zip
          (outTrace ev (rewrittenCodes content)
            (seedGlobal g0 (setG data "include" .func)))),
       errs0 ++ thrownTrace ev (rewrittenCodes content)
          (seedGlobal g0 (setG data "include" .func)),
       gTrace ev (rewrittenCodes content)
          (seedGlobal g0 (setG data "include" .func))) ∧
    subText JSVal.nullv = [] := by
  constructor
  · simp only [runPass]
    rw [evalLoop_refines]
  · rfl

/-- C7: whenever the scheme reference does not resolve in the registry,
or resolves to a scheme with empty markup, `getHtml` short-circuits to
the 404 outcome with message `Html scheme not found.` — the error list
and the global namespace are untouched, so no rendering is attempted and
no rendered body is produced. -/
theorem claim_C7_scheme_not_found (reg : List (String × Scheme))
    (ev : Global → Str → EvalRes × Global) (file_name : Str) (data : Global)
    (scheme : SchemeRef) (errs0 : List String) (g0 : Global)
    (h : resolveScheme reg scheme = none ∨
         ∃ sch, resolveScheme reg scheme = some sch ∧ sch.html = []) :
    getHtmlM reg ev file_name data scheme errs0 g0 =
      (.jsonBody 404 "Html scheme not found.", errs0, g0) := by
  rcases h with h | ⟨sch, h, hh⟩
  · simp [getHtmlM, h]
  · simp [getHtmlM, h, hh]

/-- C7 witness: the not-found theorem instantiated at an empty registry. -/
theorem claim_C7_witness :
    resolveScheme [] (.nameRef "app") = none ∧
    getHtmlM [] evalMini "index".data [] (.nameRef "app") [] [] =
      (.jsonBody 404 "Html scheme not found.", [], []) :=
  ⟨by decide, claim_C7_scheme_not_found [] evalMini "index".data [] (.nameRef "app") [] []
    (Or.inl (by decide))⟩

/-- C1: `Rooter.render` inspects the error list accumulated by the
`getHtml` call exactly once: when it is non-empty and ignore-errors is
off, the caller receives the 500 JSON `Internal Server Error.` and not
the rendered markup; when it is empty or ignore-errors is on, the caller
receives exactly what `getHtml` produced (the resolved markup on the
success path). -/
theorem claim_C1_render_error_gate (reg : List (String × Scheme))
    (ev : Global → Str → EvalRes × Global) (file_name : Str) (data : Global)
    (scheme : SchemeRef) (ignore_errors : Bool) (g0 : Global) :
    ((getHtmlM reg ev file_name data scheme [] g0).2.1 ≠ [] →
      ignore_errors = false →
      renderM reg ev file_name data scheme ignore_errors g0 =
        (.jsonBody 500 "Internal Server Error.",
         (getHtmlM reg ev file_name data scheme [] g0).2.1,
         (getHtmlM reg ev file_name data scheme [] g0).2.2)) ∧
    ((getHtmlM reg ev file_name data scheme [] g0).2.1 = [] ∨ ignore_errors = true →
      renderM reg ev file_name data scheme ignore_errors g0 =
        getHtmlM reg ev file_name data scheme [] g0) := by
  rcases hG : getHtmlM reg ev file_name data scheme [] g0 with ⟨body, errs, g⟩
  constructor
  · intro h1 h2
    simp only [renderM, hG]
    simp only at h1
    rw [if_pos ⟨h1, h2⟩]
  · intro h1
    simp only [renderM, hG]
    simp only at h1
    rw [if_neg]
    rcases h1 with h1 | h1
    · simp [h1]
    · simp [h1]

/-- C1 witness: the gate instantiated at a registry whose scheme markup
contains one throwing marker, with ignore-errors off. -/
theorem claim_C1_witness :
    (getHtmlM regW evThrow "index".data [] (.nameRef "app") [] []).2.1 = ["boom"] ∧
    renderM regW evThrow "index".data [] (.nameRef "app") false [] =
      (.jsonBody 500 "Internal Server Error.", ["boom"],
        [("file_name", .str "index".data), ("include", .func)]) := by
  refine ⟨by decide, ?_⟩
  have h := (claim_C1_render_error_gate regW evThrow "index".data [] (.nameRef "app")
    false []).1 (by decide) rfl
  rw [h]
  decide

/-- C8: the data context is not fresh per render call — it is the
process-wide global namespace.  A first call rendering
`\x7b\x7b let x = 5 \x7d\x7d` leaves `x = 5` in the namespace; a later
independent call rendering `\x7b\x7b x * 2 \x7d\x7d` with empty data
then outputs `10`, whereas the same call against a fresh namespace
throws a ReferenceError and outputs nothing — the output depends on a
prior call's context writes. -/
theorem claim_C8_context_leak :
    (runPass evalMini [] "\x7b\x7b x * 2 \x7d\x7d".data []
        (runPass evalMini [] "\x7b\x7b let x = 5 \x7d\x7d".data [] []).2.2).1
      = "10".data ∧
    (runPass evalMini [] "\x7b\x7b x * 2 \x7d\x7d".data [] []).1 = [] ∧
    (runPass evalMini [] "\x7b\x7b x * 2 \x7d\x7d".data [] []).2.1
      = ["ReferenceError: x is not defined"] := by decide

/-- C9: a finite include chain of depth two resolves with three nested
renderer invocations, but the self-referential view `loop` never
resolves within any finite number of nested invocations — the source has
no maximum recursion-depth guard and no dedicated error outcome, so the
self-include recurses without bound. -/
theorem claim_C9_unbounded_include :
    (∀ fuel, runInc loopViews fuel loopTpl = none) ∧
    runInc chainViews 3 chainTop = some "ABC".data :=
  ⟨runInc_loop_diverges, by decide⟩

/-- C10 (counterexample): the identifier rewrite is not idempotent — for
the single data key `title`, one application of `data_keys_replacer`
sends `title` to `data.title`, and a second application double-prefixes
it to `data.data.title`. -/
theorem claim_C10_counterexample :
    data_keys_replacer ["title".data] "title".data = "data.title".data ∧
    data_keys_replacer ["title".data] (data_keys_replacer ["title".data] "title".data)
      = "data.data.title".data ∧
    ("data.data.title".data : Str) ≠ "data.title".data := by decide

/-- C10 (amended): the declaration rewrite is idempotent — applying
`(let|const|var) \x20 to global.` to its own output changes nothing —
but the identifier rewrite is not: re-applying it double-prefixes an
already-rewritten reference (`data.title` becomes `data.data.title`). -/
theorem claim_C10_amended :
    (∀ s, declRewrite (declRewrite s) = declRewrite s) ∧
    data_keys_replacer ["title".data] (data_keys_replacer ["title".data] "title".data)
      = "data.data.title".data :=
  ⟨declRewrite_idem, by decide⟩
